import Mathlib

/-!
Verification development for the file-watcher notification relay
(src/main.go).  Go strings are embedded as `List Char`; Go maps as
association lists; the filesystem and HTTP endpoint as explicit inputs to
the handler functions.  Function names follow the Go source.
-/

/-- Convert a Lean string literal to the char-list representation used
throughout this development. -/
def chars (s : String) : List Char := s.data

/-- Go unicode.IsSpace: the Unicode White_Space property, used by
strings.TrimSpace in ensureValidData (main.go:321). -/
def isSpace (c : Char) : Bool :=
  decide ((9 ≤ c.toNat ∧ c.toNat ≤ 13) ∨ c.toNat = 32 ∨ c.toNat = 0x85 ∨
    c.toNat = 0xA0 ∨ c.toNat = 0x1680 ∨ (0x2000 ≤ c.toNat ∧ c.toNat ≤ 0x200A) ∨
    c.toNat = 0x2028 ∨ c.toNat = 0x2029 ∨ c.toNat = 0x202F ∨ c.toNat = 0x205F ∨
    c.toNat = 0x3000)

/-- Go strings.TrimSpace: drop Unicode whitespace from both ends. -/
def trimSpace (s : List Char) : List Char :=
  ((s.dropWhile isSpace).reverse.dropWhile isSpace).reverse

/-- JSON insignificant whitespace as accepted by Go's encoding/json scanner. -/
def jsonWS (c : Char) : Bool := c = ' ' || c = '\t' || c = '\n' || c = '\r'

/-- Skip JSON whitespace. -/
def skipWS (s : List Char) : List Char := s.dropWhile jsonWS

/-- Hexadecimal digit, as accepted after a backslash-u escape by Go's
encoding/json scanner. -/
def isHexDigit (c : Char) : Bool :=
  decide ((48 ≤ c.toNat ∧ c.toNat ≤ 57) ∨ (97 ≤ c.toNat ∧ c.toNat ≤ 102) ∨
    (65 ≤ c.toNat ∧ c.toNat ≤ 70))

/-- ASCII decimal digit, as used by the number states of Go's encoding/json
scanner. -/
def isDigitChar (c : Char) : Bool := decide (48 ≤ c.toNat ∧ c.toNat ≤ 57)

/-- Scan a JSON string body after the opening quote, per the in-string
states of Go's encoding/json scanner: a quote closes the string, a
backslash must introduce a legal escape, and unescaped control characters
below U+0020 are rejected.  Returns the input remaining after the closing
quote. -/
def scanString : List Char → Option (List Char)
  | [] => none
  | c :: cs =>
    if c = '"' then some cs
    else if c = '\\' then
      match cs with
      | [] => none
      | e :: cs2 =>
        if e = '"' ∨ e = '\\' ∨ e = '/' ∨ e = 'b' ∨ e = 'f' ∨ e = 'n' ∨ e = 'r' ∨ e = 't' then
          scanString cs2
        else if e = 'u' then
          match cs2 with
          | a :: b :: c3 :: d :: cs3 =>
            if isHexDigit a && isHexDigit b && isHexDigit c3 && isHexDigit d then
              scanString cs3
            else none
          | _ => none
        else none
    else if c.toNat < 32 then none
    else scanString cs

/-- Consume a run of ASCII digits. -/
def scanDigits : List Char → List Char
  | [] => []
  | c :: cs => if isDigitChar c then scanDigits cs else c :: cs

/-- Optional exponent part of a JSON number (state1/stateE of the Go
scanner): e or E, an optional sign, then at least one digit. -/
def scanExpOpt (s : List Char) : Option (List Char) :=
  match s with
  | [] => some []
  | e :: rest =>
    if e = 'e' ∨ e = 'E' then
      let rest2 := match rest with
        | s1 :: r => if s1 = '+' ∨ s1 = '-' then r else s1 :: r
        | [] => []
      match rest2 with
      | [] => none
      | d :: ds => if isDigitChar d then some (scanDigits ds) else none
    else some (e :: rest)

/-- Optional fraction then optional exponent of a JSON number: a dot must
be followed by at least one digit. -/
def scanFracExp (s : List Char) : Option (List Char) :=
  match s with
  | '.' :: rest =>
    (match rest with
     | [] => none
     | d :: ds => if isDigitChar d then scanExpOpt (scanDigits ds) else none)
  | _ => scanExpOpt s

/-- Integer part of a JSON number after an optional minus sign: 0, or a
nonzero digit followed by digits (a leading zero may not be followed by
another digit), then fraction/exponent. -/
def scanIntThen (s : List Char) : Option (List Char) :=
  match s with
  | [] => none
  | c :: cs =>
    if c = '0' then scanFracExp cs
    else if isDigitChar c then scanFracExp (scanDigits cs)
    else none

/-- Match an exact literal tail (rue / alse / ull). -/
def expectChars : List Char → List Char → Option (List Char)
  | rest, [] => some rest
  | [], _ :: _ => none
  | c :: rest, e :: es => if c = e then expectChars rest es else none

mutual

/-- One JSON value, per the value dispatch of Go's encoding/json scanner
(stateBeginValue).  The fuel argument bounds recursion depth; every
nesting level consumes input, so the fuel supplied by isValidJson is
always sufficient.  (The scanner's fixed 10000 nesting cap is not
modelled.) -/
def parseValue : Nat → List Char → Option (List Char)
  | 0, _ => none
  | Nat.succ fuel, s =>
    match s with
    | [] => none
    | c :: cs =>
      if c = '"' then scanString cs
      else if c = '{' then
        match skipWS cs with
        | '}' :: rest => some rest
        | cs2 => parseMembers fuel cs2
      else if c = '[' then
        match skipWS cs with
        | ']' :: rest => some rest
        | cs2 => parseElements fuel cs2
      else if c = 't' then expectChars cs (chars "rue")
      else if c = 'f' then expectChars cs (chars "alse")
      else if c = 'n' then expectChars cs (chars "ull")
      else if c = '-' then scanIntThen cs
      else if c = '0' then scanFracExp cs
      else if isDigitChar c then scanFracExp (scanDigits cs)
      else none

/-- Members of a JSON object after the opening brace (nonempty case):
string key, colon, value, then comma and more members or a closing
brace. -/
def parseMembers : Nat → List Char → Option (List Char)
  | 0, _ => none
  | Nat.succ fuel, s =>
    match s with
    | '"' :: cs =>
      (match scanString cs with
       | none => none
       | some rest =>
         match skipWS rest with
         | ':' :: rest2 =>
           (match parseValue fuel (skipWS rest2) with
            | none => none
            | some rest3 =>
              match skipWS rest3 with
              | ',' :: rest4 => parseMembers fuel (skipWS rest4)
              | '}' :: rest4 => some rest4
              | _ => none)
         | _ => none)
    | _ => none

/-- Elements of a JSON array after the opening bracket (nonempty case):
value, then comma and more elements or a closing bracket. -/
def parseElements : Nat → List Char → Option (List Char)
  | 0, _ => none
  | Nat.succ fuel, s =>
    match parseValue fuel s with
    | none => none
    | some rest =>
      match skipWS rest with
      | ',' :: rest2 => parseElements fuel (skipWS rest2)
      | ']' :: rest2 => some rest2
      | _ => none

end

/-- Go json.Unmarshal into a json.RawMessage succeeds exactly when the
input is one JSON value surrounded only by JSON whitespace (checkValid in
encoding/json).  Fuel 2n+2 suffices: at least one character is consumed
for every two fuel decrements. -/
def isValidJson (s : List Char) : Bool :=
  match parseValue (2 * s.length + 2) (skipWS s) with
  | some rest => decide (skipWS rest = [])
  | none => false

/-- The empty JSON object returned by ensureValidData for blank content. -/
def emptyObject : List Char := ['{', '}']

/-- Go strings.ReplaceAll(data, quote, backslash-quote) in
ensureValidData (main.go:331): each double quote becomes a backslash
followed by a quote. -/
def escapeQuotes (s : List Char) : List Char :=
  s.flatMap (fun c => if c = '"' then ['\\', '"'] else [c])

/-- ensureValidData (main.go:319-337): blank content becomes the empty
JSON object; content that json.Unmarshal accepts is returned unchanged;
anything else is wrapped as a double-quoted string with internal double
quotes escaped. -/
def ensureValidData (data : List Char) : List Char :=
  if trimSpace data = [] then emptyObject
  else if isValidJson data then data
  else '"' :: (escapeQuotes data ++ ['"'])

/-- Outbound event payload (struct EventData, main.go:27-32). -/
structure EventData where
  steamID64 : List Char
  type : List Char
  event : List Char
  data : List Char
deriving DecidableEq

/-- Lookup in a Go map embedded as an association list. -/
def lookupKey (k : List Char) : List (List Char × α) → Option α
  | [] => none
  | (k1, v) :: rest => if k1 = k then some v else lookupKey k rest

/-- Go delete(m, k). -/
def eraseKey (k : List Char) : List (List Char × α) → List (List Char × α)
  | [] => []
  | (k1, v) :: rest => if k1 = k then eraseKey k rest else (k1, v) :: eraseKey k rest

/-- Go m[k] = v: observationally, the new binding shadows any old one. -/
def insertKey (k : List Char) (v : α) (m : List (List Char × α)) :
    List (List Char × α) :=
  (k, v) :: eraseKey k m

/-- The watcher's mutable state: the content cache (fileCache, main.go:49)
and the modification-time table (fileStates, main.go:93).  Modification
times are abstracted as naturals; time.Time.Equal is equality. -/
structure WatState where
  fileCache : List (List Char × List Char)
  fileStates : List (List Char × Nat)
deriving DecidableEq

/-- getCachedContent (main.go:311-316): cached content, or the empty
string for a path never cached. -/
def getCachedContent (fileCache : List (List Char × List Char))
    (filename : List Char) : List Char :=
  match lookupKey filename fileCache with
  | some content => content
  | none => []

/-- handleFileCreate (main.go:201-221).  The result of os.ReadFile is an
explicit input (none = read error); time.Now() is the explicit input
now.  Returns the new state and the event handed to sendEventWithRetry,
if any. -/
def handleFileCreate (filename steamID : List Char)
    (readRes : Option (List Char)) (now : Nat) (st : WatState) :
    WatState × Option EventData :=
  match readRes with
  | none => (st, none)
  | some content =>
    let st1 : WatState :=
      { st with fileCache := insertKey filename content st.fileCache }
    let ev : EventData :=
      { steamID64 := steamID, type := chars "player",
        event := chars "add-dino-data", data := ensureValidData content }
    ({ st1 with fileStates := insertKey filename now st1.fileStates }, some ev)

/-- handleFileWrite (main.go:223-259).  The two os.Stat calls and the
os.ReadFile call are explicit inputs (none = error).  A write whose
freshly stat-ed modification time equals the recorded one is dropped. -/
def handleFileWrite (filename steamID : List Char)
    (stat1 : Option Nat) (readRes : Option (List Char)) (stat2 : Option Nat)
    (st : WatState) : WatState × Option EventData :=
  match stat1 with
  | none => (st, none)
  | some mt =>
    if lookupKey filename st.fileStates = some mt then (st, none)
    else
      match readRes with
      | none => (st, none)
      | some content =>
        let st1 : WatState :=
          { st with fileCache := insertKey filename content st.fileCache }
        let ev : EventData :=
          { steamID64 := steamID, type := chars "player",
            event := chars "change-dino-data", data := ensureValidData content }
        let st2 : WatState :=
          match stat2 with
          | some mt2 => { st1 with fileStates := insertKey filename mt2 st1.fileStates }
          | none => st1
        (st2, some ev)

/-- handleFileRemove (main.go:261-278): build the delete event from the
cached content, then purge the path from both tables. -/
def handleFileRemove (filename steamID : List Char) (st : WatState) :
    WatState × Option EventData :=
  let content := getCachedContent st.fileCache filename
  let ev : EventData :=
    { steamID64 := steamID, type := chars "player",
      event := chars "delete-dino-data", data := ensureValidData content }
  ({ fileCache := eraseKey filename st.fileCache,
     fileStates := eraseKey filename st.fileStates }, some ev)

/-- Windows path separator test (os.IsPathSeparator): backslash or
slash. -/
def isPathSep (c : Char) : Bool := c = '\\' || c = '/'

/-- Scan forward to the next path separator, returning the number of
characters before it (helper for the UNC share name in
volumeNameLen). -/
def scanShareLen : List Char → Nat
  | [] => 0
  | c :: cs => if isPathSep c then 0 else scanShareLen cs + 1

/-- First separator position within the first bound characters, if any
(helper for the UNC server name in volumeNameLen). -/
def findSlashWithin : List Char → Nat → Option Nat
  | _, 0 => none
  | [], _ + 1 => none
  | c :: cs, bound + 1 =>
    if isPathSep c then some 0 else (findSlashWithin cs bound).map (· + 1)

/-- Go path/filepath volumeNameLen on Windows: a drive letter followed by
a colon has volume length 2; a UNC path (two leading separators, then a
server name, a separator and a share name) has the volume span the server
and share; anything else has no volume prefix. -/
def volumeNameLen (p : List Char) : Nat :=
  match p with
  | c0 :: ':' :: _ => if c0.isAlpha then 2 else 0
  | c0 :: c1 :: c2 :: rest =>
    if 5 ≤ p.length ∧ isPathSep c0 ∧ isPathSep c1 ∧ ¬isPathSep c2 ∧ c2 ≠ '.' then
      match findSlashWithin rest (p.length - 4) with
      | none => 0
      | some k =>
        match (c2 :: rest).drop (k + 2) with
        | [] => 0
        | d :: ds =>
          if isPathSep d then 0
          else if d = '.' then 0
          else (3 + k) + 1 + scanShareLen (d :: ds)
    else 0
  | _ => 0

/-- Go path/filepath Base on Windows (main.go calls filepath.Base at
main.go:294): empty path gives a dot; otherwise trailing separators are
stripped, the volume name is dropped, and everything up to the last
separator is dropped; if nothing remains the path was all separators and
a single separator is returned. -/
def base (p : List Char) : List Char :=
  if p = [] then ['.']
  else
    let p1 := (p.reverse.dropWhile isPathSep).reverse
    let p2 := p1.drop (volumeNameLen p1)
    let p3 := (p2.reverse.takeWhile (fun c => !isPathSep c)).reverse
    if p3 = [] then ['\\'] else p3

/-- Scan a reversed path for its extension, per Go path/filepath Ext:
walk from the end, stop at a separator (no extension) or at a dot (the
extension runs from that dot to the end). -/
def extRevAux : List Char → Option (List Char)
  | [] => none
  | c :: cs =>
    if isPathSep c then none
    else if c = '.' then some [c]
    else (extRevAux cs).map (fun l => c :: l)

/-- Go path/filepath Ext: the suffix starting at the final dot of the
last path element, or empty if there is none. -/
def ext (p : List Char) : List Char :=
  match extRevAux p.reverse with
  | some e => e.reverse
  | none => []

/-- getSteamIDFromFilename (main.go:293-300): the base name with the
extension stripped, unless the extension is at least as long as the base
name, in which case the base name is returned whole. -/
def getSteamIDFromFilename (filename : List Char) : List Char :=
  let b := base filename
  let e := ext b
  if e.length ≥ b.length then b
  else b.take (b.length - e.length)

/-- The guard in handleFileEvent (main.go:180) that discards an event
whose extracted subject identifier is empty. -/
def discardsEvent (filename : List Char) : Bool :=
  decide (getSteamIDFromFilename filename = [])

/-- maxRetries (main.go:23). -/
def maxRetries : Nat := 3

/-- retryDelay (main.go:24) in seconds. -/
def retryDelaySeconds : Nat := 2

/-- Outcome of one HTTP POST as observed by sendEvent: either a transport
error (no response) or a response with a status code and body. -/
inductive Outcome where
  | transportError
  | response (status : Nat) (body : List Char)

/-- The HTML / login-page sniff in sendEvent (main.go:415-418): does the
body contain any of the four marker substrings. -/
def startsWithChars : List Char → List Char → Bool
  | _, [] => true
  | [], _ :: _ => false
  | h :: hs, n :: ns => h = n && startsWithChars hs ns

/-- Go strings.Contains: some suffix of the haystack starts with the
needle. -/
def containsSub : List Char → List Char → Bool
  | hay, needle =>
    startsWithChars hay needle ||
      match hay with
      | [] => false
      | _ :: t => containsSub t needle

/-- isHTML in sendEvent (main.go:415-418). -/
def isHTMLResponse (body : List Char) : Bool :=
  containsSub body (chars "<!DOCTYPE html>") || containsSub body (chars "<html") ||
  containsSub body (chars "Steam") || containsSub body (chars "Sign In")

/-- The response classification of sendEvent (main.go:403-427), as the
pair (Success, IsHTML): a transport error is a retryable failure; a
response succeeds exactly when its status is 2xx and its body carries no
HTML marker. -/
def sendEventClassify : Outcome → Bool × Bool
  | Outcome.transportError => (false, false)
  | Outcome.response status body =>
    let h := isHTMLResponse body
    (decide (200 ≤ status ∧ status < 300) && !h, h)

/-- Result of sendEventWithRetry: how many attempts were made, whether
delivery succeeded, whether it was aborted on the HTML classification,
and the list of inter-attempt sleep durations in chronological order. -/
structure RetryResult where
  attempts : Nat
  success : Bool
  htmlAbort : Bool
  sleeps : List Nat
deriving DecidableEq

/-- The body of the retry loop in sendEventWithRetry (main.go:339-360),
one recursive step per loop iteration; fuel counts the iterations left
(maxRetries - attempt + 1 at the loop head).  On a retryable failure with
attempt < maxRetries the loop sleeps retryDelay before the next
attempt. -/
def sendLoopAux (resp : Nat → Outcome) : Nat → Nat → RetryResult
  | attempt, 0 =>
    { attempts := attempt - 1, success := false, htmlAbort := false, sleeps := [] }
  | attempt, fuel + 1 =>
    let c := sendEventClassify (resp attempt)
    if c.1 = true then
      { attempts := attempt, success := true, htmlAbort := false, sleeps := [] }
    else if c.2 = true then
      { attempts := attempt, success := false, htmlAbort := true, sleeps := [] }
    else
      let r := sendLoopAux resp (attempt + 1) fuel
      { attempts := r.attempts, success := r.success, htmlAbort := r.htmlAbort,
        sleeps := (if attempt < maxRetries then [retryDelaySeconds] else []) ++ r.sleeps }

/-- sendEventWithRetry (main.go:339-360): attempts 1 through maxRetries,
where resp gives the outcome of each attempt. -/
def sendEventWithRetry (resp : Nat → Outcome) : RetryResult :=
  sendLoopAux resp 1 maxRetries


theorem mem_of_mem_dropWhile {p : Char → Bool} {c : Char} :
    ∀ {l : List Char}, c ∈ l.dropWhile p → c ∈ l := by
  intro l
  induction l with
  | nil => simp
  | cons hd tl ih =>
    intro h
    rw [List.dropWhile_cons] at h
    by_cases hp : p hd = true
    · simp only [hp, if_true] at h
      exact List.mem_cons_of_mem hd (ih h)
    · simp only [hp, if_false] at h
      exact h

theorem all_space_of_dropWhile {l : List Char}
    (h : ∀ c ∈ l.dropWhile isSpace, isSpace c = true) : ∀ c ∈ l, isSpace c = true := by
  induction l with
  | nil => simp
  | cons hd tl ih =>
    intro c hc
    rw [List.dropWhile_cons] at h
    by_cases hp : isSpace hd = true
    · simp only [hp, if_true] at h
      rcases List.mem_cons.mp hc with rfl | hc2
      · exact hp
      · exact ih h c hc2
    · simp only [hp, if_false] at h
      exact h c hc

theorem all_space_of_trimSpace_eq_nil {s : List Char} (h : trimSpace s = []) :
    ∀ c ∈ s, isSpace c = true := by
  unfold trimSpace at h
  rw [List.reverse_eq_nil_iff, List.dropWhile_eq_nil_iff] at h
  apply all_space_of_dropWhile
  intro c hc
  exact h c (List.mem_reverse.mpr hc)

theorem trimSpace_eq_nil_of_all_space {s : List Char}
    (h : ∀ c ∈ s, isSpace c = true) : trimSpace s = [] := by
  unfold trimSpace
  rw [List.reverse_eq_nil_iff, List.dropWhile_eq_nil_iff]
  intro c hc
  have h1 : s.dropWhile isSpace = [] := List.dropWhile_eq_nil_iff.mpr h
  rw [h1] at hc
  simp at hc

theorem parseValue_nil (fuel : Nat) : parseValue fuel [] = none := by
  cases fuel with
  | zero => rfl
  | succ f => rfl

theorem parseValue_space_head (fuel : Nat) (c : Char) (rest : List Char)
    (h : isSpace c = true) : parseValue fuel (c :: rest) = none := by
  cases fuel with
  | zero => rfl
  | succ f =>
    have hp := of_decide_eq_true (show decide ((9 ≤ c.toNat ∧ c.toNat ≤ 13) ∨
      c.toNat = 32 ∨ c.toNat = 0x85 ∨ c.toNat = 0xA0 ∨ c.toNat = 0x1680 ∨
      (0x2000 ≤ c.toNat ∧ c.toNat ≤ 0x200A) ∨ c.toNat = 0x2028 ∨ c.toNat = 0x2029 ∨
      c.toNat = 0x202F ∨ c.toNat = 0x205F ∨ c.toNat = 0x3000) = true from h)
    have h1 : ¬ c = '"' := by rintro rfl; exact absurd hp (by decide)
    have h2 : ¬ c = '{' := by rintro rfl; exact absurd hp (by decide)
    have h3 : ¬ c = '[' := by rintro rfl; exact absurd hp (by decide)
    have h4 : ¬ c = 't' := by rintro rfl; exact absurd hp (by decide)
    have h5 : ¬ c = 'f' := by rintro rfl; exact absurd hp (by decide)
    have h6 : ¬ c = 'n' := by rintro rfl; exact absurd hp (by decide)
    have h7 : ¬ c = '-' := by rintro rfl; exact absurd hp (by decide)
    have h8 : ¬ c = '0' := by rintro rfl; exact absurd hp (by decide)
    have h9 : isDigitChar c = false := by
      apply decide_eq_false
      rintro ⟨ha, hb⟩
      omega
    simp [parseValue, h1, h2, h3, h4, h5, h6, h7, h8, h9]

theorem isValidJson_trimSpace_ne_nil {s : List Char} (hv : isValidJson s = true) :
    trimSpace s ≠ [] := by
  intro hts
  have hall := all_space_of_trimSpace_eq_nil hts
  have hnone : parseValue (2 * s.length + 2) (skipWS s) = none := by
    cases hu : skipWS s with
    | nil => exact parseValue_nil _
    | cons c rest =>
      have hc : c ∈ s := by
        have hm : c ∈ skipWS s := by rw [hu]; exact List.mem_cons_self c rest
        exact mem_of_mem_dropWhile hm
      exact parseValue_space_head _ _ _ (hall c hc)
  simp [isValidJson, hnone] at hv

theorem ensureValidData_of_valid {s : List Char} (hv : isValidJson s = true) :
    ensureValidData s = s := by
  unfold ensureValidData
  rw [if_neg (isValidJson_trimSpace_ne_nil hv), if_pos hv]

theorem parseValue_quote (fuel : Nat) (cs : List Char) :
    parseValue (fuel + 1) ('"' :: cs) = scanString cs := rfl

theorem scanString_escape (s : List Char) (rest : List Char)
    (h : ∀ c ∈ s, 32 ≤ c.toNat ∧ c ≠ '\\') :
    scanString (escapeQuotes s ++ '"' :: rest) = some rest := by
  induction s with
  | nil =>
    show scanString ('"' :: rest) = some rest
    rw [scanString.eq_def]
    rfl
  | cons c cs ih =>
    have hc := h c (List.mem_cons_self c cs)
    have hcs : ∀ x ∈ cs, 32 ≤ x.toNat ∧ x ≠ '\\' :=
      fun x hx => h x (List.mem_cons_of_mem c hx)
    by_cases hq : c = '"'
    · subst hq
      show scanString ('\\' :: '"' :: (escapeQuotes cs ++ '"' :: rest)) = some rest
      rw [show scanString ('\\' :: '"' :: (escapeQuotes cs ++ '"' :: rest)) =
        scanString (escapeQuotes cs ++ '"' :: rest) from by rw [scanString.eq_def]; rfl]
      exact ih hcs
    · have he : escapeQuotes (c :: cs) = c :: escapeQuotes cs := by
        simp [escapeQuotes, hq]
      rw [he, List.cons_append]
      have h2 : ¬ c = '\\' := hc.2
      have h3 : ¬ (c.toNat < 32) := by omega
      rw [show scanString (c :: (escapeQuotes cs ++ '"' :: rest)) =
        scanString (escapeQuotes cs ++ '"' :: rest) from by
          rw [scanString.eq_def]
          dsimp only
          rw [if_neg hq, if_neg h2, if_neg h3]]
      exact ih hcs

theorem isValidJson_wrapped (s : List Char)
    (h : ∀ c ∈ s, 32 ≤ c.toNat ∧ c ≠ '\\') :
    isValidJson ('"' :: (escapeQuotes s ++ ['"'])) = true := by
  unfold isValidJson
  rw [show skipWS ('"' :: (escapeQuotes s ++ ['"'])) =
    '"' :: (escapeQuotes s ++ ['"']) from rfl]
  rw [show 2 * ('"' :: (escapeQuotes s ++ ['"'])).length + 2 =
    (2 * ('"' :: (escapeQuotes s ++ ['"'])).length + 1) + 1 from rfl]
  rw [parseValue_quote]
  rw [show (['"'] : List Char) = '"' :: ([] : List Char) from rfl]
  rw [scanString_escape s [] h]
  rfl

/-- C1 (amended): ensureValidData maps blank content to the empty JSON
object, returns valid-JSON content unchanged, and wraps anything else as
a quoted string with internal double quotes escaped; the result is
parseable as JSON whenever the content is blank, already valid JSON, or
free of backslashes and control characters below U+0020.  (For content
with a backslash or control character the wrap can be unparseable; see
the counterexample.) -/
theorem ensureValidData_normalizes (s : List Char) :
    ((∀ c ∈ s, isSpace c = true) →
        ensureValidData s = emptyObject ∧ isValidJson (ensureValidData s) = true) ∧
    (isValidJson s = true → ensureValidData s = s) ∧
    (trimSpace s ≠ [] → isValidJson s = false →
        ensureValidData s = '"' :: (escapeQuotes s ++ ['"'])) ∧
    ((∀ c ∈ s, 32 ≤ c.toNat ∧ c ≠ '\\') → isValidJson (ensureValidData s) = true) := by
  refine ⟨?_, fun hv => ensureValidData_of_valid hv, ?_, ?_⟩
  · intro h
    have ht := trimSpace_eq_nil_of_all_space h
    refine ⟨by simp [ensureValidData, ht], ?_⟩
    rw [show ensureValidData s = emptyObject from by simp [ensureValidData, ht]]
    decide
  · intro h1 h2
    simp [ensureValidData, h1, h2]
  · intro h
    by_cases ht : trimSpace s = []
    · rw [show ensureValidData s = emptyObject from by simp [ensureValidData, ht]]
      decide
    · by_cases hv : isValidJson s = true
      · rw [ensureValidData_of_valid hv]
        exact hv
      · rw [show ensureValidData s = '"' :: (escapeQuotes s ++ ['"']) from by
          simp [ensureValidData, ht, hv]]
        exact isValidJson_wrapped s h

/-- Witness for ensureValidData_normalizes at concrete inputs: a blank
string, the valid JSON null, and the invalid-JSON word hi. -/
theorem ensureValidData_normalizes_witness :
    (ensureValidData [' '] = emptyObject ∧
      isValidJson (ensureValidData [' ']) = true) ∧
    ensureValidData (chars "null") = chars "null" ∧
    ensureValidData (chars "hi") = '"' :: (escapeQuotes (chars "hi") ++ ['"']) ∧
    isValidJson (ensureValidData (chars "hi")) = true :=
  ⟨(ensureValidData_normalizes [' ']).1 (by decide),
   (ensureValidData_normalizes (chars "null")).2.1 (by decide),
   (ensureValidData_normalizes (chars "hi")).2.2.1 (by decide) (by decide),
   (ensureValidData_normalizes (chars "hi")).2.2.2 (by decide)⟩

/-- C1 counterexample: for the one-character content consisting of a
single backslash, ensureValidData produces a quote, a backslash and a
quote, which is not parseable as JSON (the backslash escapes the closing
quote), refuting the claim that the result is parseable for every
possible input string. -/
theorem ensureValidData_backslash_unparseable :
    ensureValidData (chars "\\") = ['"', '\\', '"'] ∧
    isValidJson (ensureValidData (chars "\\")) = false :=
  ⟨by decide, by decide⟩

/-- C2 (amended): ensureValidData is idempotent on every content string
containing no backslash and no control character below U+0020 (for a
string with a backslash it is not; see the counterexample). -/
theorem ensureValidData_idempotent_safe (s : List Char)
    (h : ∀ c ∈ s, 32 ≤ c.toNat ∧ c ≠ '\\') :
    ensureValidData (ensureValidData s) = ensureValidData s := by
  by_cases ht : trimSpace s = []
  · rw [show ensureValidData s = emptyObject from by simp [ensureValidData, ht]]
    decide
  · by_cases hv : isValidJson s = true
    · rw [ensureValidData_of_valid hv]
      exact ensureValidData_of_valid hv
    · rw [show ensureValidData s = '"' :: (escapeQuotes s ++ ['"']) from by
        simp [ensureValidData, ht, hv]]
      exact ensureValidData_of_valid (isValidJson_wrapped s h)

/-- Witness for ensureValidData_idempotent_safe at the concrete
backslash-free content hi. -/
theorem ensureValidData_idempotent_safe_witness :
    ensureValidData (ensureValidData (chars "hi")) = ensureValidData (chars "hi") :=
  ensureValidData_idempotent_safe (chars "hi") (by decide)

/-- C2 counterexample: on the one-character content consisting of a
single backslash, normalizing twice differs from normalizing once, so
ensureValidData is not idempotent on all strings. -/
theorem ensureValidData_not_idempotent :
    ensureValidData (ensureValidData (chars "\\")) ≠ ensureValidData (chars "\\") := by
  decide

theorem lookupKey_eraseKey {α : Type} (k : List Char) (m : List (List Char × α)) :
    lookupKey k (eraseKey k m) = none := by
  induction m with
  | nil => rfl
  | cons hd tl ih =>
    obtain ⟨k1, v⟩ := hd
    by_cases h : k1 = k
    · simp [eraseKey, h, ih]
    · simp [eraseKey, lookupKey, h, ih]

/-- C3: a write event whose freshly stat-ed modification time equals the
time previously recorded for the path produces no delivery attempt and
leaves the content cache and the modification-time table unchanged. -/
theorem handleFileWrite_dedup (filename steamID : List Char) (t : Nat)
    (readRes : Option (List Char)) (stat2 : Option Nat) (st : WatState)
    (h : lookupKey filename st.fileStates = some t) :
    handleFileWrite filename steamID (some t) readRes stat2 st = (st, none) := by
  simp [handleFileWrite, h]

/-- Witness for handleFileWrite_dedup on a concrete one-entry state. -/
theorem handleFileWrite_dedup_witness :
    handleFileWrite (chars "p") (chars "p") (some 5) (some (chars "x")) (some 7)
      { fileCache := [], fileStates := [(chars "p", 5)] } =
      ({ fileCache := [], fileStates := [(chars "p", 5)] }, none) :=
  handleFileWrite_dedup (chars "p") (chars "p") 5 (some (chars "x")) (some 7)
    { fileCache := [], fileStates := [(chars "p", 5)] } (by decide)

/-- C8: a create event whose read fails, and a write event whose stat or
read fails, are dropped with no delivery attempt and leave the tracked
state exactly as it was: no cache entry is created and no timestamp is
updated. -/
theorem handlers_drop_on_io_error (filename steamID : List Char) (now t : Nat)
    (readRes : Option (List Char)) (stat2 : Option Nat) (st : WatState) :
    handleFileCreate filename steamID none now st = (st, none) ∧
    handleFileWrite filename steamID none readRes stat2 st = (st, none) ∧
    handleFileWrite filename steamID (some t) none stat2 st = (st, none) := by
  refine ⟨rfl, rfl, ?_⟩
  by_cases h : lookupKey filename st.fileStates = some t
  · simp [handleFileWrite, h]
  · simp [handleFileWrite, h]

/-- C4: a remove event delivers a delete event whose data field is the
normalization of the cached content (in particular the content itself
when it is valid JSON, and the empty JSON object when the path was never
cached), and afterwards the path is absent from both the content cache
and the modification-time table. -/
theorem handleFileRemove_spec (filename steamID : List Char) (st : WatState) :
    (∀ X, lookupKey filename st.fileCache = some X →
        (handleFileRemove filename steamID st).2 =
          some { steamID64 := steamID, type := chars "player",
                 event := chars "delete-dino-data", data := ensureValidData X }) ∧
    (∀ X, lookupKey filename st.fileCache = some X → isValidJson X = true →
        (handleFileRemove filename steamID st).2 =
          some { steamID64 := steamID, type := chars "player",
                 event := chars "delete-dino-data", data := X }) ∧
    (lookupKey filename st.fileCache = none →
        (handleFileRemove filename steamID st).2 =
          some { steamID64 := steamID, type := chars "player",
                 event := chars "delete-dino-data", data := emptyObject }) ∧
    lookupKey filename (handleFileRemove filename steamID st).1.fileCache = none ∧
    lookupKey filename (handleFileRemove filename steamID st).1.fileStates = none := by
  refine ⟨?_, ?_, ?_, ?_, ?_⟩
  · intro X hX
    simp [handleFileRemove, getCachedContent, hX]
  · intro X hX hv
    simp [handleFileRemove, getCachedContent, hX, ensureValidData_of_valid hv]
  · intro hX
    simp [handleFileRemove, getCachedContent, hX]
    rfl
  · exact lookupKey_eraseKey filename st.fileCache
  · exact lookupKey_eraseKey filename st.fileStates

/-- Witness for handleFileRemove_spec on concrete states: a cached path
with valid-JSON content and an uncached path. -/
theorem handleFileRemove_spec_witness :
    (handleFileRemove (chars "p") (chars "s")
        { fileCache := [(chars "p", chars "7")], fileStates := [(chars "p", 1)] }).2 =
      some { steamID64 := chars "s", type := chars "player",
             event := chars "delete-dino-data", data := chars "7" } ∧
    (handleFileRemove (chars "q") (chars "s")
        { fileCache := [], fileStates := [] }).2 =
      some { steamID64 := chars "s", type := chars "player",
             event := chars "delete-dino-data", data := emptyObject } :=
  ⟨(handleFileRemove_spec (chars "p") (chars "s")
      { fileCache := [(chars "p", chars "7")], fileStates := [(chars "p", 1)] }).2.1
      (chars "7") (by decide) (by decide),
   (handleFileRemove_spec (chars "q") (chars "s")
      { fileCache := [], fileStates := [] }).2.2.1 (by decide)⟩

theorem sendLoopAux_step (resp : Nat → Outcome) (attempt fuel : Nat) :
    sendLoopAux resp attempt (fuel + 1) =
      (let c := sendEventClassify (resp attempt)
       if c.1 = true then
         { attempts := attempt, success := true, htmlAbort := false, sleeps := [] }
       else if c.2 = true then
         { attempts := attempt, success := false, htmlAbort := true, sleeps := [] }
       else
         let r := sendLoopAux resp (attempt + 1) fuel
         { attempts := r.attempts, success := r.success, htmlAbort := r.htmlAbort,
           sleeps := (if attempt < maxRetries then [retryDelaySeconds] else []) ++ r.sleeps }) := by
  rw [sendLoopAux.eq_def]

/-- C5: a received response is classified as a successful delivery exactly
when its status code is in the 2xx range and its body contains no HTML or
login-page marker; when a marker is present the outcome carries the
distinct HTML flag and the retry loop stops after that attempt. -/
theorem sendEvent_success_iff (status : Nat) (body : List Char) :
    ((sendEventClassify (Outcome.response status body)).1 = true ↔
      (200 ≤ status ∧ status < 300) ∧ isHTMLResponse body = false) ∧
    (isHTMLResponse body = true →
      (sendEventClassify (Outcome.response status body)).2 = true ∧
      ∀ resp : Nat → Outcome, resp 1 = Outcome.response status body →
        sendEventWithRetry resp =
          { attempts := 1, success := false, htmlAbort := true, sleeps := [] }) := by
  constructor
  · cases hh : isHTMLResponse body with
    | false => simp [sendEventClassify, hh]
    | true => simp [sendEventClassify, hh]
  · intro hh
    refine ⟨by simp [sendEventClassify, hh], ?_⟩
    intro resp hresp
    show sendLoopAux resp 1 (2 + 1) = _
    rw [sendLoopAux_step, hresp]
    simp [sendEventClassify, hh]

/-- Witness for sendEvent_success_iff: a 200 response whose body is an
HTML document is HTML-flagged and delivery stops after one attempt. -/
theorem sendEvent_success_iff_witness :
    sendEventWithRetry (fun _ => Outcome.response 200 (chars "<!DOCTYPE html> login")) =
      { attempts := 1, success := false, htmlAbort := true, sleeps := [] } :=
  ((sendEvent_success_iff 200 (chars "<!DOCTYPE html> login")).2 (by decide)).2
    (fun _ => Outcome.response 200 (chars "<!DOCTYPE html> login")) rfl

/-- C6: a delivery that fails retryably N times (N below the maximum of 3)
and then succeeds makes exactly N+1 attempts with one fixed-length sleep
between each consecutive pair, and is reported successful; a delivery
whose attempts all fail retryably makes exactly 3 attempts and ends in
reported failure (the loop returns normally, raising nothing). -/
theorem sendEventWithRetry_attempts (resp : Nat → Outcome) :
    (∀ N, N < maxRetries →
      (∀ i, 1 ≤ i → i ≤ N → sendEventClassify (resp i) = (false, false)) →
      (sendEventClassify (resp (N + 1))).1 = true →
      sendEventWithRetry resp =
        { attempts := N + 1, success := true, htmlAbort := false,
          sleeps := List.replicate N retryDelaySeconds }) ∧
    ((∀ i, 1 ≤ i → i ≤ maxRetries → sendEventClassify (resp i) = (false, false)) →
      sendEventWithRetry resp =
        { attempts := maxRetries, success := false, htmlAbort := false,
          sleeps := List.replicate (maxRetries - 1) retryDelaySeconds }) := by
  constructor
  · intro N hN hfail hsucc
    have hN3 : N < 3 := hN
    interval_cases N
    · show sendLoopAux resp 1 (2 + 1) = _
      rw [sendLoopAux_step]
      simp [hsucc]
    · have h1 := hfail 1 (by omega) (by omega)
      show sendLoopAux resp 1 (2 + 1) = _
      rw [sendLoopAux_step, h1]
      rw [show sendLoopAux resp (1 + 1) 2 = sendLoopAux resp 2 (1 + 1) from rfl]
      rw [sendLoopAux_step]
      simp [hsucc, maxRetries]
    · have h1 := hfail 1 (by omega) (by omega)
      have h2 := hfail 2 (by omega) (by omega)
      show sendLoopAux resp 1 (2 + 1) = _
      rw [sendLoopAux_step, h1]
      rw [show sendLoopAux resp (1 + 1) 2 = sendLoopAux resp 2 (1 + 1) from rfl]
      rw [sendLoopAux_step, h2]
      rw [show sendLoopAux resp (2 + 1) 1 = sendLoopAux resp 3 (0 + 1) from rfl]
      rw [sendLoopAux_step]
      simp [hsucc, maxRetries, List.replicate]
  · intro hfail
    have h1 := hfail 1 (by decide) (by decide)
    have h2 := hfail 2 (by decide) (by decide)
    have h3 := hfail 3 (by decide) (by decide)
    show sendLoopAux resp 1 (2 + 1) = _
    rw [sendLoopAux_step, h1]
    rw [show sendLoopAux resp (1 + 1) 2 = sendLoopAux resp 2 (1 + 1) from rfl]
    rw [sendLoopAux_step, h2]
    rw [show sendLoopAux resp (2 + 1) 1 = sendLoopAux resp 3 (0 + 1) from rfl]
    rw [sendLoopAux_step, h3]
    rw [show sendLoopAux resp (3 + 1) 0 =
      { attempts := 3, success := false, htmlAbort := false, sleeps := [] } from rfl]
    simp [maxRetries, List.replicate]

/-- Witness for sendEventWithRetry_attempts: one transport failure and
then a 204 success gives two attempts and one sleep; three transport
failures give three attempts, two sleeps and reported failure. -/
theorem sendEventWithRetry_attempts_witness :
    sendEventWithRetry
        (fun i => if i = 1 then Outcome.transportError else Outcome.response 204 []) =
      { attempts := 2, success := true, htmlAbort := false,
        sleeps := List.replicate 1 retryDelaySeconds } ∧
    sendEventWithRetry (fun _ => Outcome.transportError) =
      { attempts := maxRetries, success := false, htmlAbort := false,
        sleeps := List.replicate (maxRetries - 1) retryDelaySeconds } :=
  ⟨(sendEventWithRetry_attempts
      (fun i => if i = 1 then Outcome.transportError else Outcome.response 204 [])).1
      1 (by decide)
      (fun i hi1 hi2 => by
        have hi : i = 1 := by omega
        subst hi
        rfl)
      (by decide),
   (sendEventWithRetry_attempts (fun _ => Outcome.transportError)).2
      (fun i hi1 hi2 => rfl)⟩

/-- C9: whenever a response body contains one of the four marker
substrings, the delivery is classified as the HTML case and the retry
loop stops after that attempt, for every status code, 2xx or not. -/
theorem htmlResponse_aborts (status : Nat) (body : List Char)
    (h : isHTMLResponse body = true) :
    (sendEventClassify (Outcome.response status body)).1 = false ∧
    (sendEventClassify (Outcome.response status body)).2 = true ∧
    ∀ resp : Nat → Outcome, resp 1 = Outcome.response status body →
      sendEventWithRetry resp =
        { attempts := 1, success := false, htmlAbort := true, sleeps := [] } := by
  refine ⟨by simp [sendEventClassify, h], by simp [sendEventClassify, h], ?_⟩
  intro resp hresp
  show sendLoopAux resp 1 (2 + 1) = _
  rw [sendLoopAux_step, hresp]
  simp [sendEventClassify, h]

/-- Witness for htmlResponse_aborts: a 404 body mentioning Sign In stops
retries after one attempt. -/
theorem htmlResponse_aborts_witness :
    sendEventWithRetry (fun _ => Outcome.response 404 (chars "Sign In to Steam")) =
      { attempts := 1, success := false, htmlAbort := true, sleeps := [] } :=
  (htmlResponse_aborts 404 (chars "Sign In to Steam") (by decide)).2.2
    (fun _ => Outcome.response 404 (chars "Sign In to Steam")) rfl

theorem take_append_of_suffix (t e b : List Char) (hb : b = t ++ e) :
    b.take (b.length - e.length) ++ e = b := by
  subst hb
  rw [List.length_append, Nat.add_sub_cancel, List.take_left]

theorem base_length_pos (p : List Char) : 0 < (base p).length := by
  unfold base
  split
  · simp
  · dsimp only
    split
    · simp
    · rename_i h
      exact List.length_pos.mpr h

theorem extRevAux_shape : ∀ (l e : List Char), extRevAux l = some e →
    (∃ u, l = e ++ u) ∧
    ∃ pre, e = pre ++ ['.'] ∧ ∀ c ∈ pre, isPathSep c = false ∧ c ≠ '.' := by
  intro l
  induction l with
  | nil => intro e h; simp [extRevAux] at h
  | cons c cs ih =>
    intro e h
    cases hps : isPathSep c with
    | true => simp [extRevAux, hps] at h
    | false =>
      by_cases hdot : c = '.'
      · subst hdot
        simp [extRevAux, hps] at h
        subst h
        exact ⟨⟨cs, rfl⟩, ⟨[], rfl, by simp⟩⟩
      · simp [extRevAux, hps, hdot, Option.map_eq_some'] at h
        obtain ⟨e0, he0, hcons⟩ := h
        obtain ⟨⟨u, hu⟩, ⟨pre, hpre, hprop⟩⟩ := ih e0 he0
        subst hcons
        refine ⟨⟨u, by rw [hu]; rfl⟩, ⟨c :: pre, by rw [hpre]; rfl, ?_⟩⟩
        intro x hx
        rcases List.mem_cons.mp hx with rfl | hx2
        · exact ⟨hps, hdot⟩
        · exact hprop x hx2

/-- C7: the identity extractor returns the path's base name with exactly
the final extension stripped: when the base name has no extension the
full base name is returned; when the extension is a proper suffix, the
returned identifier concatenated with the extension reconstructs the base
name, the extension starts with the last dot of the base name (its tail
is dot-free); and when the extension spans at least the whole base name
the full base name is returned unchanged. -/
theorem getSteamIDFromFilename_spec (p : List Char) :
    (ext (base p) = [] → getSteamIDFromFilename p = base p) ∧
    (ext (base p) ≠ [] → (ext (base p)).length < (base p).length →
      getSteamIDFromFilename p ++ ext (base p) = base p ∧
      (ext (base p)).head? = some '.' ∧
      ∀ c ∈ (ext (base p)).tail, c ≠ '.') ∧
    ((base p).length ≤ (ext (base p)).length → getSteamIDFromFilename p = base p) := by
  refine ⟨?_, ?_, ?_⟩
  · intro he
    unfold getSteamIDFromFilename
    dsimp only
    rw [he]
    have hb0 : 0 < (base p).length := base_length_pos p
    have hcond : ¬ (([] : List Char).length ≥ (base p).length) := by
      simp only [List.length_nil]
      omega
    rw [if_neg hcond]
    simp
  · intro he hlt
    cases hm : extRevAux (base p).reverse with
    | none => exact absurd (by simp [ext, hm]) he
    | some e1 =>
      obtain ⟨⟨u, hu⟩, ⟨pre, hpre, hprop⟩⟩ := extRevAux_shape _ e1 hm
      have hext : ext (base p) = e1.reverse := by simp [ext, hm]
      have hb : base p = u.reverse ++ ext (base p) := by
        rw [hext]
        have h2 := congrArg List.reverse hu
        simpa using h2
      refine ⟨?_, ?_, ?_⟩
      · unfold getSteamIDFromFilename
        dsimp only
        rw [if_neg (by omega)]
        exact take_append_of_suffix u.reverse (ext (base p)) (base p) hb
      · rw [hext, hpre]
        simp
      · intro c hc
        rw [hext, hpre] at hc
        simp at hc
        exact (hprop c hc).2
  · intro hge
    unfold getSteamIDFromFilename
    dsimp only
    rw [if_pos hge]

/-- Witness for getSteamIDFromFilename_spec: a name with an extension, a
name without one, and a name that is only an extension. -/
theorem getSteamIDFromFilename_spec_witness :
    getSteamIDFromFilename (chars "save.json") ++ ext (base (chars "save.json")) =
      base (chars "save.json") ∧
    getSteamIDFromFilename (chars "readme") = base (chars "readme") ∧
    getSteamIDFromFilename (chars ".json") = base (chars ".json") :=
  ⟨((getSteamIDFromFilename_spec (chars "save.json")).2.1 (by decide) (by decide)).1,
   (getSteamIDFromFilename_spec (chars "readme")).1 (by decide),
   (getSteamIDFromFilename_spec (chars ".json")).2.2 (by decide)⟩

/-- C10: the identity extractor returns a nonempty identifier for every
input path, so the guard in handleFileEvent that would discard an event
with an empty subject identifier never fires. -/
theorem getSteamIDFromFilename_never_empty (filename : List Char) :
    0 < (getSteamIDFromFilename filename).length ∧ discardsEvent filename = false := by
  have hb : 0 < (base filename).length := base_length_pos filename
  have hlen : 0 < (getSteamIDFromFilename filename).length := by
    unfold getSteamIDFromFilename
    dsimp only
    split
    · exact hb
    · rename_i h
      rw [List.length_take]
      omega
  refine ⟨hlen, ?_⟩
  apply decide_eq_false
  intro hnil
  rw [hnil] at hlen
  simp at hlen
